import Mathlib

/-!
Verification of the suggestion-lifecycle core of an editor extension:
the Myers line-diff engine (`MyersDiff.ts`), the per-file suggestion
tracker (`FileTracker.ts`), the bounded FIFO cache (`CacheManager`),
the ghost-text acceptance detector (`GhostTextManager`), the generation
response validation (`schemas/index.ts` + `CodeGenerator.ts`), and the
completion-session guard (`CompletionProvider.ts`).

Each definition is a shallow embedding of the corresponding TypeScript
source.  JavaScript-specific behaviour is modelled exactly:

* `arr[i]` for an out-of-range or negative `i` yields `undefined`,
  modelled as `Option` via `jsIndex`;
* `Array.prototype.slice` with negative/clamped indices is `jsSlice`;
* a JS array used with *negative* integer keys (as the `v` array in
  `MyersDiff.runMyersAlgorithm` is) stores those entries as plain object
  properties, so reads behave like a total map (defaulting to
  `undefined`, coerced by `?? 0`), while the spread copy `[...v]` taken
  for the trace keeps only the proper array elements `0 … length-1`;
  the live array is therefore modelled as a total function `Int → Int`
  (default `0`) and a trace snapshot as `Int → Option Int` that is
  `none` outside `[0, 2*maxD]`.
-/

set_option linter.unusedVariables false

/-- JS `arr[i]`: `undefined` (= `none`) when `i` is negative or past the end. -/
def jsIndex {α : Type} (l : List α) (i : Int) : Option α :=
  if i < 0 then none else l.get? i.toNat

/-- JS `Array.prototype.slice(start, end)` with the usual clamping and
negative-index-from-the-end semantics. -/
def jsSlice {α : Type} (l : List α) (s e : Int) : List α :=
  let len : Int := l.length
  let s' : Int := if s < 0 then max (len + s) 0 else min s len
  let e' : Int := if e < 0 then max (len + e) 0 else min e len
  (l.drop s'.toNat).take (e' - s').toNat

/-- JS `String.prototype.split(/\r?\n/)` on the character list: a line break is
`"\r\n"` or `"\n"`; a lone `"\r"` does not split. -/
def splitLinesChars : List Char → List (List Char)
  | [] => [[]]
  | '\r' :: '\n' :: rest => [] :: splitLinesChars rest
  | '\n' :: rest => [] :: splitLinesChars rest
  | c :: rest =>
    match splitLinesChars rest with
    | [] => [[c]]
    | l :: ls => (c :: l) :: ls

/-- JS `String.prototype.split('\n')` on the character list. -/
def splitNlChars : List Char → List (List Char)
  | [] => [[]]
  | '\n' :: rest => [] :: splitNlChars rest
  | c :: rest =>
    match splitNlChars rest with
    | [] => [[c]]
    | l :: ls => (c :: l) :: ls

/-- JS `s.split('\n')` as a list of strings. -/
def jsSplitNewline (s : String) : List String :=
  (splitNlChars s.data).map String.mk

namespace MyersDiff

/-- `DiffOperation` from `interfaces/MyersDiff.ts`. -/
inductive DiffType
  | equal
  | del
  | ins
deriving DecidableEq, Repr

/-- One operation of the diff result (`interfaces/MyersDiff.ts`). -/
structure DiffOperation where
  type : DiffType
  oldStart : Int
  oldEnd : Int
  newStart : Int
  newEnd : Int
  content : List String
deriving DecidableEq, Repr

/-- The complete diff result (`interfaces/MyersDiff.ts`). -/
structure DiffResult where
  operations : List DiffOperation
  oldLength : Int
  newLength : Int
  editDistance : Int
deriving DecidableEq, Repr

/-- `MyersDiff.splitLines`: `''` maps to `['']`, otherwise split on `/\r?\n/`. -/
def splitLines (text : String) : List String :=
  if text = "" then [""]
  else (splitLinesChars text.data).map String.mk

/-- Write `v[k] = x` on the live `v` array (total-map view, see module header). -/
def vUpdate (v : Int → Int) (k : Int) (x : Int) : Int → Int :=
  fun i => if i = k then x else v i

/-- `[...v]`: the spread copy pushed on `trace` keeps only the proper array
elements at indices `0 … 2*maxD`; negative-key properties are lost. -/
def snapshotV (maxD : Int) (v : Int → Int) : Int → Option Int :=
  fun k => if 0 ≤ k ∧ k < 2 * maxD + 1 then some (v k) else none

/-- Fuelled version of the snake loop; the fuel is an upper bound on the
number of iterations (each iteration requires `x < oldLines.length` and
increments `x`, so `(oldLines.length - x).toNat` iterations suffice). -/
def snakeLoopF (oldLines newLines : List String) : Nat → Int → Int → Int × Int
  | 0, x, y => (x, y)
  | fuel + 1, x, y =>
    if x < (oldLines.length : Int) ∧ y < (newLines.length : Int) ∧
        jsIndex oldLines x = jsIndex newLines y then
      snakeLoopF oldLines newLines fuel (x + 1) (y + 1)
    else
      (x, y)

/-- The snake loop inside `calculateXY`:
`while (x < oldLength && y < newLength && oldLines[x] === newLines[y])`. -/
def snakeLoop (oldLines newLines : List String) (x y : Int) : Int × Int :=
  snakeLoopF oldLines newLines ((oldLines.length : Int) - x).toNat x y

/-- `MyersDiff.calculateXY` on the live `v` array. -/
def calculateXY (oldLines newLines : List String) (v : Int → Int) (k d : Int) :
    Int × Int :=
  let x : Int :=
    if k = -d ∨ (k ≠ d ∧ v (k - 1) < v (k + 1)) then v (k + 1) else v (k - 1) + 1
  let y : Int := x - k
  snakeLoop oldLines newLines x y

/-- The inner `for (let k = -d; k <= d; k += 2)` loop of `runMyersAlgorithm`:
returns the updated `v` and whether `(x, y)` reached `(oldLength, newLength)`
(the early `return this.buildDiff(trace, d)`). -/
def forwardInner (oldLines newLines : List String) (d : Int) :
    (Int → Int) → List Int → (Int → Int) × Bool
  | v, [] => (v, false)
  | v, k :: ks =>
    let xy := calculateXY oldLines newLines v k d
    let v' := vUpdate v k xy.1
    if xy.1 ≥ (oldLines.length : Int) ∧ xy.2 ≥ (newLines.length : Int) then (v', true)
    else forwardInner oldLines newLines d v' ks

/-- The diagonals `-d, -d+2, …, d` visited at edit distance `d`. -/
def kRange (d : Nat) : List Int :=
  (List.range (d + 1)).map (fun j => -(d : Int) + 2 * (j : Int))

/-- The outer `for (let d = 0; d <= maxD; d++)` loop of `runMyersAlgorithm`:
`some (trace, d)` models the early return into `buildDiff`, `none` the
fall-through to `createReplaceResult`. -/
def forwardOuter (oldLines newLines : List String) (maxD : Nat) :
    Nat → (Int → Int) → List (Int → Option Int) → Nat →
    Option (List (Int → Option Int) × Nat)
  | 0, _, _, _ => none
  | fuel + 1, v, trace, d =>
    if d ≤ maxD then
      let trace' := trace ++ [snapshotV (maxD : Int) v]
      let step := forwardInner oldLines newLines (d : Int) v (kRange d)
      if step.2 then some (trace', d)
      else forwardOuter oldLines newLines maxD fuel step.1 trace' (d + 1)
    else none

/-- `MyersDiff.calculatePrevK`, reading a trace snapshot (`v[k±1] ?? 0`). -/
def calculatePrevK (v : Int → Option Int) (k i : Int) : Int :=
  if k = -i ∨ (k ≠ i ∧ (v (k - 1)).getD 0 < (v (k + 1)).getD 0) then k + 1
  else k - 1

/-- Fuelled version of the backward snake loop of `buildDiff`; each
iteration requires `prevX < x` and decrements `x`, so `(x - prevX).toNat`
iterations suffice. -/
def backSnakeF (prevX prevY : Int) : Nat → Int → Int → Int × Int
  | 0, x, y => (x, y)
  | fuel + 1, x, y =>
    if prevX < x ∧ prevY < y then backSnakeF prevX prevY fuel (x - 1) (y - 1)
    else (x, y)

/-- The `while (x > prevX && y > prevY) { x--; y-- }` loop of `buildDiff`. -/
def backSnake (prevX prevY x y : Int) : Int × Int :=
  backSnakeF prevX prevY (x - prevX).toNat x y

/-- The `for (let i = d; i >= 0; i--)` backtracking loop of `buildDiff`;
`is` is the descending list `[d, …, 0]`.  A missing snapshot or an
`undefined` `prevX` triggers the source's `continue`. -/
def buildDiffLoop (oldLines newLines : List String)
    (trace : List (Int → Option Int)) :
    List Nat → Int → Int → List DiffOperation → Int × Int × List DiffOperation
  | [], x, y, ops => (x, y, ops)
  | i :: is, x, y, ops =>
    match trace.get? i with
    | none => buildDiffLoop oldLines newLines trace is x y ops
    | some v =>
      let k := x - y
      let prevK := calculatePrevK v k (i : Int)
      match v prevK with
      | none => buildDiffLoop oldLines newLines trace is x y ops
      | some prevX =>
        let prevY := prevX - prevK
        let xy := backSnake prevX prevY x y
        let ops' :=
          if prevX < xy.1 then
            { type := DiffType.del, oldStart := prevX, oldEnd := xy.1,
              newStart := prevY, newEnd := prevY,
              content := jsSlice oldLines prevX xy.1 } :: ops
          else if prevY < xy.2 then
            { type := DiffType.ins, oldStart := prevX, oldEnd := prevX,
              newStart := prevY, newEnd := xy.2,
              content := jsSlice newLines prevY xy.2 } :: ops
          else ops
        buildDiffLoop oldLines newLines trace is prevX prevY ops'

/-- One iteration of the `for (const op of operations)` loop of
`addEqualOperations`, threading `(oldPos, newPos, result)`. -/
def addEqualStep (oldLines : List String)
    (acc : Int × Int × List DiffOperation) (op : DiffOperation) :
    Int × Int × List DiffOperation :=
  let oldPos := acc.1
  let newPos := acc.2.1
  let result := acc.2.2
  let result :=
    if oldPos < op.oldStart ∨ newPos < op.newStart then
      let equalLength := min (op.oldStart - oldPos) (op.newStart - newPos)
      if 0 < equalLength then
        result ++ [{ type := DiffType.equal, oldStart := oldPos,
                     oldEnd := oldPos + equalLength, newStart := newPos,
                     newEnd := newPos + equalLength,
                     content := jsSlice oldLines oldPos (oldPos + equalLength) }]
      else result
    else result
  (op.oldEnd, op.newEnd, result ++ [op])

/-- `MyersDiff.addEqualOperations`: fill gaps between (and after) the
recorded operations with `equal` runs taken from the old lines. -/
def addEqualOperations (oldLines : List String) (n m : Int)
    (ops : List DiffOperation) : List DiffOperation :=
  let acc := ops.foldl (addEqualStep oldLines) (0, 0, [])
  let oldPos := acc.1
  let newPos := acc.2.1
  let result := acc.2.2
  if oldPos < n ∨ newPos < m then
    let equalLength := min (n - oldPos) (m - newPos)
    if 0 < equalLength then
      result ++ [{ type := DiffType.equal, oldStart := oldPos,
                   oldEnd := oldPos + equalLength, newStart := newPos,
                   newEnd := newPos + equalLength,
                   content := jsSlice oldLines oldPos (oldPos + equalLength) }]
    else result
  else result

/-- `MyersDiff.buildDiff`: backtrack through the trace, then insert the
`equal` runs. -/
def buildDiff (oldLines newLines : List String)
    (trace : List (Int → Option Int)) (d : Nat) : DiffResult :=
  let n : Int := oldLines.length
  let m : Int := newLines.length
  let res := buildDiffLoop oldLines newLines trace
    (List.reverse (List.range (d + 1))) n m []
  { operations := addEqualOperations oldLines n m res.2.2
    oldLength := n
    newLength := m
    editDistance := (d : Int) }

/-- `MyersDiff.createInsertResult`. -/
def createInsertResult (oldLines newLines : List String) (start length : Int) :
    DiffResult :=
  { operations := [{ type := DiffType.ins, oldStart := start, oldEnd := start,
                     newStart := start, newEnd := start + length,
                     content := jsSlice newLines start (start + length) }]
    oldLength := oldLines.length
    newLength := newLines.length
    editDistance := length }

/-- `MyersDiff.createDeleteResult`. -/
def createDeleteResult (oldLines newLines : List String) (start length : Int) :
    DiffResult :=
  { operations := [{ type := DiffType.del, oldStart := start,
                     oldEnd := start + length, newStart := start, newEnd := start,
                     content := jsSlice oldLines start (start + length) }]
    oldLength := oldLines.length
    newLength := newLines.length
    editDistance := length }

/-- `MyersDiff.createReplaceResult`. -/
def createReplaceResult (oldLines newLines : List String) : DiffResult :=
  { operations := [{ type := DiffType.del, oldStart := 0,
                     oldEnd := oldLines.length, newStart := 0, newEnd := 0,
                     content := oldLines },
                   { type := DiffType.ins, oldStart := 0, oldEnd := 0,
                     newStart := 0, newEnd := newLines.length,
                     content := newLines }]
    oldLength := oldLines.length
    newLength := newLines.length
    editDistance := (oldLines.length : Int) + newLines.length }

/-- `new MyersDiff(oldText, newText).computeDiff()`. -/
def computeDiff (oldText newText : String) : DiffResult :=
  let oldLines := splitLines oldText
  let newLines := splitLines newText
  if (oldLines.length : Int) = 0 then
    createInsertResult oldLines newLines 0 newLines.length
  else if (newLines.length : Int) = 0 then
    createDeleteResult oldLines newLines 0 oldLines.length
  else
    let maxD := oldLines.length + newLines.length
    match forwardOuter oldLines newLines maxD (maxD + 1) (fun _ => 0) [] 0 with
    | some td => buildDiff oldLines newLines td.1 td.2
    | none => createReplaceResult oldLines newLines

/-- Old-side reconstruction: concatenation of the `content` of the
`equal` and `delete` operations, in operation order. -/
def oldSideContent (r : DiffResult) : List String :=
  (r.operations.filter (fun op => op.type = DiffType.equal ∨ op.type = DiffType.del)).flatMap
    (fun op => op.content)

/-- New-side reconstruction: concatenation of the `content` of the
`equal` and `insert` operations, in operation order. -/
def newSideContent (r : DiffResult) : List String :=
  (r.operations.filter (fun op => op.type = DiffType.equal ∨ op.type = DiffType.ins)).flatMap
    (fun op => op.content)

end MyersDiff

/-! ## FileTracker (`integrator/utils/FileTracker.ts`)

The tracker's `Map<string, FileTrackerData[]>` is modelled as an
association list in key-insertion order, which is exactly the iteration
order of a JS `Map` (`Map.set` on an existing key updates the value in
place without moving the key; on a new key it appends). -/

/-- JS `Map.get`: the value of the first (only) entry with the key. -/
def mapGet {β : Type} : List (String × β) → String → Option β
  | [], _ => none
  | (k', v) :: rest, k => if k' = k then some v else mapGet rest k

/-- JS `Map.set`: update in place if the key exists, else append. -/
def mapSet {β : Type} : List (String × β) → String → β → List (String × β)
  | [], k, v => [(k, v)]
  | (k', v') :: rest, k, v =>
    if k' = k then (k, v) :: rest else (k', v') :: mapSet rest k v

/-- `SuggestionRecord` (`FileTrackerData`).
Modelled from the spec: the `FileTrackerData` interface declaration is not
among the provided sources (only its uses are); per §3 of the spec a record
carries a document identity, the document version at proposal time, the
operation type (`add|edit|delete|none`), old/new content, a title and a
lifecycle state, which matches every field access in
`FileTracker.ts`/`CompletionProvider.ts` (`fileUri`, `fileVersion`,
`type`, `oldContent`, `newContent`, `title`, `fileState`). -/
structure FileTrackerData where
  fileUri : String
  fileVersion : Int
  type : String
  oldContent : String
  newContent : String
  title : String
  fileState : String
deriving DecidableEq, Repr

namespace FileTracker

/-- The tracker state: `Map<string, FileTrackerData[]>` in key-insertion
order. -/
def State : Type := List (String × List FileTrackerData)

/-- `MAX_ENTRIES_PER_FILE`. -/
def MAX_ENTRIES_PER_FILE : Int := 20

/-- `FileTracker.set` (the spec's `recordSuggestion`): append to the
per-file history, then `slice(-MAX_ENTRIES_PER_FILE)` if over the cap;
a record with an empty `fileUri` is silently ignored. -/
def set (st : State) (fileTracker : FileTrackerData) : State :=
  if fileTracker.fileUri = "" then st
  else
    let fileEntries := (mapGet st fileTracker.fileUri).getD []
    let fileEntries := fileEntries ++ [fileTracker]
    let fileEntries :=
      if (fileEntries.length : Int) > MAX_ENTRIES_PER_FILE then
        jsSlice fileEntries (-MAX_ENTRIES_PER_FILE) fileEntries.length
      else fileEntries
    mapSet st fileTracker.fileUri fileEntries

/-- `FileTracker.getAll`: concatenate all per-file histories in map
(key-insertion) order. -/
def getAll (st : State) : List FileTrackerData :=
  st.flatMap (fun e => e.2)

/-- `FileTracker.get` (the spec's `latest`); the argument is optional in
the source, so it is an `Option` here, and the `{} as FileTrackerData`
sentinel returned when nothing is tracked is modelled as `none`. -/
def get (st : State) (fileUri : Option String) : Option FileTrackerData :=
  match fileUri with
  | none => (getAll st).getLast?
  | some u =>
    if u = "" then (getAll st).getLast?
    else
      match mapGet st u with
      | none => none
      | some fileEntries =>
        if fileEntries.length = 0 then none else fileEntries.getLast?

/-- `FileTracker.getFileData`: all records for one file (a copy). -/
def getFileData (st : State) (fileUri : String) : List FileTrackerData :=
  (mapGet st fileUri).getD []

/-- `FileTracker.count`: total number of records over all files. -/
def count (st : State) : Int :=
  st.foldl (fun total e => total + e.2.length) 0

end FileTracker

/-! ## CacheManager (bounded FIFO cache)

The `Map<string, CacheResponse>` is again an association list in
key-insertion order; the cached values are left as a type parameter
(the source's `CacheResponse` union is opaque to the cache logic). -/

namespace CacheManager

/-- `maxSize`. -/
def maxSize : Nat := 5000

/-- `CacheManager.evictOldest`: delete the first-inserted key (the first
key the `Map` iterator yields), a no-op on an empty cache. -/
def evictOldest {β : Type} : List (String × β) → List (String × β)
  | [] => []
  | _ :: rest => rest

/-- JS `Map.has`. -/
def has {β : Type} (cache : List (String × β)) (id : String) : Bool :=
  (mapGet cache id).isSome

/-- `CacheManager.set`: when at capacity and the key is new, evict the
oldest entry first, then `Map.set`. -/
def set {β : Type} (cache : List (String × β)) (id : String) (value : β) :
    List (String × β) :=
  if cache.length ≥ maxSize ∧ ¬ has cache id then
    mapSet (evictOldest cache) id value
  else
    mapSet cache id value

/-- `CacheManager.get`: `Map.get`, `undefined` (= `none`) when absent. -/
def get {β : Type} (cache : List (String × β)) (id : String) : Option β :=
  mapGet cache id

end CacheManager

/-! ## GhostTextManager (acceptance detector)

The host editor surface is abstracted exactly as the code consumes it:
a document exposes its `uri` (already stringified), its `version`, and a
`getText` buffer read over a range; the cursor is a `Position`.  The
`try`/`catch` wrappers in the source cannot fire in this pure model
(every operation inside them is total), so they are omitted. -/

/-- `vscode.Position` (line, character). -/
structure Position where
  line : Int
  character : Int
deriving DecidableEq, Repr

/-- `vscode.Range` as consumed by `document.getText`. -/
structure Range where
  start : Position
  stop : Position
deriving DecidableEq

/-- The buffer-read surface of `vscode.TextDocument` used by the manager. -/
structure TextDocument where
  uri : String
  version : Int
  getText : Range → String

/-- `GenerationResult` (`interfaces/index.ts`). -/
structure GenerationResult where
  lineStart : Int
  charStart : Int
  lineEnd : Int
  charEnd : Int
  content : String
  title : String
deriving DecidableEq, Repr

/-- `GhostTextData` (`interfaces/Response.ts`). -/
structure GhostTextData where
  documentUri : String
  documentVersion : Int
  lineStart : Int
  charStart : Int
  lineEnd : Int
  charEnd : Int
  content : String
  title : String
deriving DecidableEq, Repr

namespace GhostTextManager

/-- `GhostTextManager.setExpectedGhostText`: compute the end position from
the line breaks of `data.content` and store the expectation
(`expectedGhostText`), overwriting any previous one. -/
def setExpectedGhostText (document : TextDocument) (data : GenerationResult) :
    Option GhostTextData :=
  let totalLine := jsSplitNewline data.content
  let endLine : Int :=
    if totalLine.length > 1 then data.lineStart + totalLine.length - 1
    else data.lineStart
  let endCharacter : Int :=
    if totalLine.length > 1 then ((totalLine.getLast?).getD "").length
    else data.charStart + data.content.length
  some
    { documentUri := document.uri
      documentVersion := document.version
      lineStart := data.lineStart
      charStart := data.charStart
      lineEnd := endLine
      charEnd := endCharacter
      content := data.content
      title := data.title }

/-- `GhostTextManager.checkGhostTextWasAccepted`: returns the boolean
result together with the updated `expectedGhostText` slot. -/
def checkGhostTextWasAccepted (expectedGhostText : Option GhostTextData)
    (document : TextDocument) (newPosition : Position) :
    Bool × Option GhostTextData :=
  match expectedGhostText with
  | none => (false, none)
  | some g =>
    if g.documentUri ≠ document.uri then (false, some g)
    else if document.version ≤ g.documentVersion then (false, some g)
    else
      let expectedEndPos : Position := ⟨g.lineEnd, g.charEnd⟩
      if newPosition = expectedEndPos then
        let startPos : Position := ⟨g.lineStart, g.charStart⟩
        let expectedText := g.content
        let actualText := document.getText ⟨startPos, expectedEndPos⟩
        if actualText = expectedText then (true, none)
        else (false, some g)
      else (false, some g)

end GhostTextManager

/-- The end position as the *claim* words it: single-line content advances
the end character by the content's length from the start character;
multi-line content ends at line `lineStart + (number of newlines)` with the
end character being the length of the content's final line.  This is the
spec-side definition, to be compared with `setExpectedGhostText`. -/
def claimEndPosition (data : GenerationResult) : Position :=
  let newlines := data.content.data.count '\n'
  if newlines = 0 then ⟨data.lineStart, data.charStart + data.content.length⟩
  else
    ⟨data.lineStart + newlines,
     (((jsSplitNewline data.content).getLast?).getD "").length⟩

/-! ## Generation response validation (`schemas/index.ts`, `CodeGenerator.ts`)

JSON values are embedded with rational numbers (JSON numbers carry no
intrinsic width; the schema's `.int()` check is `den = 1`).  Objects
produced by `JSON.parse` have unique keys (a later duplicate key
overwrites the earlier one while parsing), so a first-match lookup over
the field list is exact. -/

/-- A parsed JSON value. -/
inductive Json where
  | null
  | bool (b : Bool)
  | num (q : Rat)
  | str (s : String)
  | arr (elems : List Json)
  | obj (fields : List (String × Json))

/-- Member lookup on a JSON value; `none` on non-objects/missing keys. -/
def getField (j : Json) (name : String) : Option Json :=
  match j with
  | Json.obj fields => mapGet fields name
  | _ => none

/-- One `z.number().int().min(lo)` field of `generationSchema`. -/
def parseIntField (j : Json) (name : String) (lo : Int) : Option Int :=
  match getField j name with
  | some (Json.num q) => if q.den = 1 ∧ lo ≤ q.num then some q.num else none
  | _ => none

/-- One `z.string().min(lo).max(hi)` field of `generationSchema`. -/
def parseStrField (j : Json) (name : String) (lo hi : Nat) : Option String :=
  match getField j name with
  | some (Json.str s) => if lo ≤ s.length ∧ s.length ≤ hi then some s else none
  | _ => none

/-- `generationSchema.parse` (`schemas/index.ts`): the object shape
`{lineStart, charStart, lineEnd, charEnd, content, title}` with
`lineStart, lineEnd : int ≥ 1`, `charStart, charEnd : int ≥ 0`,
`content : string` of length 10–1000, `title : string` of length 10–50,
refined by `lineStart <= lineEnd`; `none` models the `ZodError` throw. -/
def generationSchemaParse (j : Json) : Option GenerationResult :=
  match parseIntField j "lineStart" 1, parseIntField j "charStart" 0,
        parseIntField j "lineEnd" 1, parseIntField j "charEnd" 0,
        parseStrField j "content" 10 1000, parseStrField j "title" 10 50 with
  | some ls, some cs, some le, some ce, some content, some title =>
    if ls ≤ le then some ⟨ls, cs, le, ce, content, title⟩ else none
  | _, _, _, _, _, _ => none

/-- `requestOllama` (`CodeGenerator.ts`): `none` for the argument models a
service response that is not an object carrying a `message` member;
`some none` a `message.content` on which `JSON.parse` throws; and
`some (some j)` a successfully parsed JSON value.  The surrounding
`try`/`catch` maps every failure (unparseable JSON, schema violation) to
`null`, so the function is total and never raises. -/
def requestOllama (response : Option (Option Json)) : Option GenerationResult :=
  match response with
  | some (some parsed) => generationSchemaParse parsed
  | _ => none

/-- The type/content record of the shape the claim describes. -/
structure SpecSuggestion where
  type : String
  oldContent : String
  newContent : String
  title : String
deriving DecidableEq, Repr

/-- Modelled from the spec (§4.5): validation against the recognized shape
`{type, oldContent, newContent, title}` with the cross-field rules —
`add` requires empty `oldContent` and non-empty `newContent`, `edit`
requires both non-empty, `delete` requires non-empty `oldContent` and
empty `newContent`, `none` requires both empty.  This definition follows
the claim's words and is compared against `generationSchemaParse`, the
validation the source actually performs. -/
def specShapeValidate (j : Json) : Option SpecSuggestion :=
  match getField j "type", getField j "oldContent",
        getField j "newContent", getField j "title" with
  | some (Json.str t), some (Json.str o), some (Json.str n), some (Json.str ti) =>
    if (t = "add" ∧ o = "" ∧ n ≠ "") ∨ (t = "edit" ∧ o ≠ "" ∧ n ≠ "") ∨
        (t = "delete" ∧ o ≠ "" ∧ n = "") ∨ (t = "none" ∧ o = "" ∧ n = "") then
      some ⟨t, o, n, ti⟩
    else none
  | _, _, _, _ => none

/-- Declarative reading of `generationSchema` acceptance, used to state the
amended claim: the response object must carry exactly these six typed and
bounded fields and satisfy the `lineStart <= lineEnd` refinement. -/
def ValidGenerationResponse (j : Json) (r : GenerationResult) : Prop :=
  getField j "lineStart" = some (Json.num (r.lineStart : Rat)) ∧ 1 ≤ r.lineStart ∧
  getField j "charStart" = some (Json.num (r.charStart : Rat)) ∧ 0 ≤ r.charStart ∧
  getField j "lineEnd" = some (Json.num (r.lineEnd : Rat)) ∧ 1 ≤ r.lineEnd ∧
  getField j "charEnd" = some (Json.num (r.charEnd : Rat)) ∧ 0 ≤ r.charEnd ∧
  getField j "content" = some (Json.str r.content) ∧
  10 ≤ r.content.length ∧ r.content.length ≤ 1000 ∧
  getField j "title" = some (Json.str r.title) ∧
  10 ≤ r.title.length ∧ r.title.length ≤ 50 ∧
  r.lineStart ≤ r.lineEnd

/-! ## Completion session guard (`CompletionProvider.ts`)

The synchronous decision prefix of `provideInlineCompletionItems` — up to
and including whether `requestInlineCompletion` is invoked — is embedded
as a pure function of everything the code reads: the editor/trigger
state, the cancellation token, the `ollamaOngoing` slot and the tracker
record for the document (`FileTracker.get` returns `{}` when nothing is
tracked, whose `fileState` is `undefined`; that sentinel is `none` here). -/

/-- The inputs `provideInlineCompletionItems` inspects before the request. -/
structure SessionInput where
  /-- There is an active editor and its file name equals the document's. -/
  activeEditorMatches : Bool
  /-- `context.triggerKind === vscode.InlineCompletionTriggerKind.Automatic`. -/
  triggerAutomatic : Bool
  /-- The active editor's selection is non-empty. -/
  selectionNonEmpty : Bool
  /-- `token.isCancellationRequested`. -/
  tokenCancelled : Bool
  /-- `this.ollamaOngoing` is non-null (a generation request is outstanding). -/
  ollamaOngoing : Bool
  /-- `FileTracker.getInstance().get(document.uri.toString())`. -/
  fileTrackerData : Option FileTrackerData
deriving DecidableEq, Repr

namespace CompletionProvider

/-- `CompletionProvider.handleSessionCompletion`: `none` models `null`. -/
def handleSessionCompletion (inp : SessionInput) : Option FileTrackerData :=
  if ¬ inp.activeEditorMatches then none
  else if inp.triggerAutomatic ∧ inp.selectionNonEmpty then none
  else if inp.tokenCancelled ∨ inp.ollamaOngoing then none
  else
    match inp.fileTrackerData with
    | none => none
    | some fileTrackerData =>
      if fileTrackerData.fileState = "pending" then
        if fileTrackerData.type = "none" then none else some fileTrackerData
      else none

/-- The decision `provideInlineCompletionItems` makes synchronously:
either return items without generating (`startsRequest = false`, with the
inline items' contents in `items`), or proceed to invoke
`requestInlineCompletion` (`startsRequest = true`; what is returned then
depends on the asynchronous response and is not part of this claim). -/
structure ProvideOutcome where
  items : List String
  startsRequest : Bool
deriving DecidableEq, Repr

/-- The synchronous prefix of `CompletionProvider.provideInlineCompletionItems`:
a non-null `previousResult` is returned directly (content for `add`, empty
list otherwise); a null one falls through to
`this.ollamaOngoing = requestInlineCompletion(...)`. -/
def provideDecision (inp : SessionInput) : ProvideOutcome :=
  match handleSessionCompletion inp with
  | some previousResult =>
    if previousResult.type = "add" then ⟨[previousResult.newContent], false⟩
    else ⟨[], false⟩
  | none => ⟨[], true⟩

end CompletionProvider

/-! ## Derived definitions used to state the claims -/

/-- The records with a non-empty document identity (the only ones
`FileTracker.set` stores). -/
def trackedOf (rs : List FileTrackerData) : List FileTrackerData :=
  rs.filter (fun r => r.fileUri ≠ "")

/-- The distinct elements of a list, keeping first occurrences in order —
the key order of a JS `Map` populated by that list. -/
def dedupFirst (l : List String) : List String :=
  (l.reverse.dedup).reverse

/-- The identity of the file whose history the tracker's `Map` lists last:
the identity whose first record arrived latest. -/
def lastTrackedUri (rs : List FileTrackerData) : String :=
  ((dedupFirst ((trackedOf rs).map (fun r => r.fileUri))).getLast?).getD ""

/-- Replay a sequence of `recordSuggestion` calls on an empty tracker. -/
def FileTracker.applyAll (rs : List FileTrackerData) : FileTracker.State :=
  rs.foldl FileTracker.set []

/-- The tracker state reached by `applyAll`, described directly: one entry
per distinct identity in first-record order, holding the last (up to) 20
records for that identity. -/
def FileTracker.modelState (rs : List FileTrackerData) : FileTracker.State :=
  (dedupFirst ((trackedOf rs).map (fun r => r.fileUri))).map
    (fun u => (u, (rs.filter (fun r => r.fileUri = u)).rtake 20))

/-! ### Association-list lemmas -/

theorem mapGet_mapSet_self {β : Type} (l : List (String × β)) (k : String) (v : β) :
    mapGet (mapSet l k v) k = some v := by
  induction l with
  | nil => simp [mapSet, mapGet]
  | cons e rest ih =>
    obtain ⟨k', v'⟩ := e
    by_cases h : k' = k
    · subst h
      simp [mapSet, mapGet]
    · simp [mapSet, mapGet, h, ih]

theorem mapGet_mapSet_ne {β : Type} (l : List (String × β)) (k k' : String) (v : β)
    (h : k' ≠ k) : mapGet (mapSet l k v) k' = mapGet l k' := by
  induction l with
  | nil => simp [mapSet, mapGet, Ne.symm h]
  | cons e rest ih =>
    obtain ⟨k'', v'⟩ := e
    by_cases hk : k'' = k
    · subst hk
      simp [mapSet, mapGet, Ne.symm h]
    · simp only [mapSet, if_neg hk, mapGet]
      by_cases hk' : k'' = k'
      · simp [hk']
      · simp [hk', ih]

theorem length_mapSet_of_isSome {β : Type} (l : List (String × β)) (k : String) (v : β)
    (h : (mapGet l k).isSome) : (mapSet l k v).length = l.length := by
  induction l with
  | nil => simp [mapGet] at h
  | cons e rest ih =>
    obtain ⟨k', v'⟩ := e
    by_cases hk : k' = k
    · simp [mapSet, hk]
    · simp only [mapGet, if_neg hk] at h
      simp [mapSet, hk, ih h]

theorem mapGet_eq_none_of_keys {β : Type} (l : List (String × β)) (k : String)
    (h : ∀ p ∈ l, p.1 ≠ k) : mapGet l k = none := by
  induction l with
  | nil => rfl
  | cons e rest ih =>
    obtain ⟨k', v'⟩ := e
    have h1 : k' ≠ k := h (k', v') (by simp)
    simp only [mapGet, if_neg h1]
    exact ih (fun p hp => h p (by simp [hp]))

theorem mapSet_append_of_keys {β : Type} (l : List (String × β)) (k : String) (v : β)
    (h : ∀ p ∈ l, p.1 ≠ k) : mapSet l k v = l ++ [(k, v)] := by
  induction l with
  | nil => rfl
  | cons e rest ih =>
    obtain ⟨k', v'⟩ := e
    have h1 : k' ≠ k := h (k', v') (by simp)
    simp only [mapSet, if_neg h1, List.cons_append, List.cons.injEq, true_and]
    exact ih (fun p hp => h p (by simp [hp]))

theorem evictOldest_eq_drop {β : Type} (l : List (String × β)) :
    CacheManager.evictOldest l = l.drop 1 := by
  cases l <;> rfl

/-- C10 (frame effect of `CacheManager.set` on a present key): no entry is
evicted even at capacity — the key is remapped, every other key keeps its
value, and the entry count is unchanged. -/
theorem C10_set_existing_key_frame {β : Type} (cache : List (String × β))
    (k : String) (v : β) (h : CacheManager.has cache k = true) :
    CacheManager.get (CacheManager.set cache k v) k = some v ∧
    (∀ k', k' ≠ k → CacheManager.get (CacheManager.set cache k v) k' =
      CacheManager.get cache k') ∧
    (CacheManager.set cache k v).length = cache.length := by
  have hset : CacheManager.set cache k v = mapSet cache k v := by
    unfold CacheManager.set
    rw [if_neg]
    simp [h]
  refine ⟨?_, fun k' hk' => ?_, ?_⟩
  · rw [hset]
    exact mapGet_mapSet_self cache k v
  · rw [hset]
    exact mapGet_mapSet_ne cache k k' v hk'
  · rw [hset]
    exact length_mapSet_of_isSome cache k v (by simpa [CacheManager.has] using h)

/-- Witness for C10 at a concrete two-entry cache. -/
theorem C10_witness :
    CacheManager.has [("a", (1 : Int)), ("b", 2)] "a" = true ∧
    CacheManager.get (CacheManager.set [("a", (1 : Int)), ("b", 2)] "a" 9) "a" = some 9 ∧
    CacheManager.get (CacheManager.set [("a", (1 : Int)), ("b", 2)] "a" 9) "b" = some 2 ∧
    (CacheManager.set [("a", (1 : Int)), ("b", 2)] "a" 9).length = 2 :=
  ⟨by decide,
   (C10_set_existing_key_frame [("a", (1 : Int)), ("b", 2)] "a" 9 (by decide)).1,
   (C10_set_existing_key_frame [("a", (1 : Int)), ("b", 2)] "a" 9 (by decide)).2.1 "b"
     (by decide),
   (C10_set_existing_key_frame [("a", (1 : Int)), ("b", 2)] "a" 9 (by decide)).2.2⟩

theorem cache_foldl_range {β : Type} (key : Nat → String) (val : Nat → β)
    (hinj : ∀ i j, key i = key j → i = j) (n : Nat) :
    (List.range n).foldl (fun st i => CacheManager.set st (key i) (val i)) [] =
      ((List.range n).map (fun i => (key i, val i))).drop (n - CacheManager.maxSize) := by
  induction n with
  | zero => rfl
  | succ n ih =>
    rw [List.range_succ, List.foldl_append, List.foldl_cons, List.foldl_nil, ih]
    have hfresh : ∀ p ∈ ((List.range n).map (fun i => (key i, val i))).drop
        (n - CacheManager.maxSize), p.1 ≠ key n := by
      intro p hp
      have hp' := List.mem_of_mem_drop hp
      obtain ⟨i, hi, rfl⟩ := List.mem_map.1 hp'
      intro hkey
      have := hinj _ _ hkey
      subst this
      exact absurd (List.mem_range.1 hi) (lt_irrefl i)
    have hlen : (((List.range n).map (fun i => (key i, val i))).drop
        (n - CacheManager.maxSize)).length = n - (n - CacheManager.maxSize) := by
      simp [List.length_drop]
    have hget := mapGet_eq_none_of_keys _ _ hfresh
    by_cases hn : n < CacheManager.maxSize
    · have hcond : ¬ ((((List.range n).map (fun i => (key i, val i))).drop
          (n - CacheManager.maxSize)).length ≥ CacheManager.maxSize ∧
          ¬ CacheManager.has (((List.range n).map (fun i => (key i, val i))).drop
            (n - CacheManager.maxSize)) (key n) = true) := by
        rw [hlen]
        intro hc
        omega
      rw [CacheManager.set, if_neg hcond, mapSet_append_of_keys _ _ _ hfresh]
      have h0 : n - CacheManager.maxSize = 0 := by omega
      have h0' : n + 1 - CacheManager.maxSize = 0 := by omega
      simp [h0, h0', List.map_append]
    · have hcond : (((List.range n).map (fun i => (key i, val i))).drop
          (n - CacheManager.maxSize)).length ≥ CacheManager.maxSize ∧
          ¬ CacheManager.has (((List.range n).map (fun i => (key i, val i))).drop
            (n - CacheManager.maxSize)) (key n) = true := by
        constructor
        · rw [hlen]; omega
        · simp [CacheManager.has, hget]
      rw [CacheManager.set, if_pos hcond, evictOldest_eq_drop]
      have hfresh2 : ∀ p ∈ (((List.range n).map (fun i => (key i, val i))).drop
          (n - CacheManager.maxSize)).drop 1, p.1 ≠ key n := by
        intro p hp
        exact hfresh p (List.mem_of_mem_drop hp)
      have hm1 : 1 ≤ CacheManager.maxSize := by decide
      rw [mapSet_append_of_keys _ _ _ hfresh2, List.drop_drop, List.map_append,
        List.drop_append_of_le_length (by simp; omega)]
      have harith : n - CacheManager.maxSize + 1 = n + 1 - CacheManager.maxSize := by omega
      rw [harith]
      simp

theorem mapGet_map_of_mem {β : Type} (key : Nat → String) (val : Nat → β)
    (hinj : ∀ a b, key a = key b → a = b) (is : List Nat) (i : Nat) (hi : i ∈ is) :
    mapGet (is.map (fun j => (key j, val j))) (key i) = some (val i) := by
  induction is with
  | nil => cases hi
  | cons j js ih =>
    simp only [List.map_cons, mapGet]
    by_cases h : key j = key i
    · have hji := hinj _ _ h
      subst hji
      simp
    · have hi' : i ∈ js := by
        rcases List.mem_cons.1 hi with rfl | hi'
        · exact absurd rfl h
        · exact hi'
      simp [h, ih hi']

/-- C9 (FIFO eviction at capacity 5000): after `set` on 5001 distinct keys
in order, the first-inserted key is absent and each of the 5000 later keys
maps to its value. -/
theorem C9_fifo_eviction {β : Type} (key : Nat → String) (val : Nat → β)
    (hinj : ∀ i j, key i = key j → i = j) :
    CacheManager.get ((List.range 5001).foldl
      (fun st i => CacheManager.set st (key i) (val i)) []) (key 0) = none ∧
    ∀ i, 1 ≤ i → i ≤ 5000 →
      CacheManager.get ((List.range 5001).foldl
        (fun st i => CacheManager.set st (key i) (val i)) []) (key i) = some (val i) := by
  have hfold := cache_foldl_range key val hinj 5001
  have hdrop : (5001 - CacheManager.maxSize) = 1 := by rfl
  rw [hdrop] at hfold
  have hrange : List.range 5001 = 0 :: (List.range 5000).map Nat.succ :=
    List.range_succ_eq_map 5000
  have hfinal : (List.range 5001).foldl
      (fun st i => CacheManager.set st (key i) (val i)) [] =
      ((List.range 5000).map Nat.succ).map (fun j => (key j, val j)) := by
    rw [hfold, hrange]
    simp
  constructor
  · rw [hfinal]
    apply mapGet_eq_none_of_keys
    intro p hp
    obtain ⟨j, hj, rfl⟩ := List.mem_map.1 hp
    intro hkey
    obtain ⟨a, _, rfl⟩ := List.mem_map.1 hj
    exact Nat.succ_ne_zero a (hinj _ _ hkey)
  · intro i h1 h5000
    rw [hfinal]
    apply mapGet_map_of_mem key val hinj
    rw [List.mem_map]
    exact ⟨i - 1, List.mem_range.2 (by omega), by omega⟩

/-- Witness for C9 with the injective key family `i ↦ "aa…a"` (`i` copies). -/
theorem C9_witness :
    CacheManager.get ((List.range 5001).foldl
      (fun st i => CacheManager.set st (String.mk (List.replicate i 'a')) ((i : Int))) [])
      (String.mk (List.replicate 0 'a')) = none ∧
    CacheManager.get ((List.range 5001).foldl
      (fun st i => CacheManager.set st (String.mk (List.replicate i 'a')) ((i : Int))) [])
      (String.mk (List.replicate 5000 'a')) = some 5000 := by
  have hinj : ∀ i j, String.mk (List.replicate i 'a') = String.mk (List.replicate j 'a') →
      i = j := by
    intro i j h
    have := congrArg String.length h
    simpa using this
  exact ⟨(C9_fifo_eviction _ _ hinj).1,
    (C9_fifo_eviction _ _ hinj).2 5000 (by omega) (by omega)⟩

/-! ### Suffix (`rtake`) and slice lemmas -/

theorem rtake_length_le {α : Type} (l : List α) (n : Nat) : (l.rtake n).length ≤ n := by
  simp only [List.rtake, List.length_drop]
  omega

theorem rtake_eq_self {α : Type} (l : List α) (n : Nat) (h : l.length ≤ n) :
    l.rtake n = l := by
  have h0 : l.length - n = 0 := by omega
  simp [List.rtake, h0]

theorem rtake_ne_nil {α : Type} (l : List α) (n : Nat) (hn : 0 < n) (hl : l ≠ []) :
    l.rtake n ≠ [] := by
  have hp : 0 < (l.rtake n).length := by
    have := List.length_pos.2 hl
    simp only [List.rtake, List.length_drop]
    omega
  exact List.length_pos.1 hp

theorem getLast?_rtake {α : Type} (l : List α) (n : Nat) (hn : 0 < n) :
    (l.rtake n).getLast? = l.getLast? := by
  by_cases hl : l = []
  · subst hl
    simp [List.rtake]
  · have hne : l.drop (l.length - n) ≠ [] := by
      have := rtake_ne_nil l n hn hl
      simpa [List.rtake] using this
    rw [List.rtake]
    conv_rhs => rw [← List.take_append_drop (l.length - n) l]
    rw [List.getLast?_append_of_ne_nil _ hne]

theorem rtake_append_rtake {α : Type} (xs ys : List α) (n : Nat) :
    ((xs.rtake n) ++ ys).rtake n = (xs ++ ys).rtake n := by
  rw [List.rtake_eq_reverse_take_reverse, List.rtake_eq_reverse_take_reverse,
    List.rtake_eq_reverse_take_reverse, List.reverse_append, List.reverse_reverse,
    List.reverse_append, List.take_append_eq_append_take,
    List.take_append_eq_append_take, List.take_take]
  have hmin : min (n - ys.reverse.length) n = n - ys.reverse.length := by omega
  rw [hmin]

theorem jsSlice_neg_eq_rtake {α : Type} (l : List α) (k : Nat) (hk : 0 < k)
    (hkl : k ≤ l.length) : jsSlice l (-(k : Int)) l.length = l.rtake k := by
  unfold jsSlice List.rtake
  dsimp only
  rw [if_pos (by omega : -(k : Int) < 0), if_neg (by omega : ¬ (l.length : Int) < 0)]
  have h1 : max ((l.length : Int) + -(k : Int)) 0 = ((l.length - k : Nat) : Int) := by
    omega
  have h2 : min (l.length : Int) (l.length : Int) = (l.length : Int) := min_self _
  rw [h1, h2]
  have h3 : (((l.length - k : Nat) : Int)).toNat = l.length - k := Int.toNat_natCast _
  rw [h3]
  apply List.take_of_length_le
  simp only [List.length_drop]
  omega

/-! ### `dedupFirst` lemmas -/

theorem mem_dedupFirst {u : String} {l : List String} : u ∈ dedupFirst l ↔ u ∈ l := by
  simp [dedupFirst, List.mem_dedup]

theorem nodup_dedupFirst (l : List String) : (dedupFirst l).Nodup := by
  simp [dedupFirst, List.nodup_dedup]

theorem dedupFirst_concat_mem {l : List String} {u : String} (h : u ∈ l) :
    dedupFirst (l ++ [u]) = dedupFirst l := by
  unfold dedupFirst
  rw [List.reverse_append]
  simp only [List.reverse_cons, List.reverse_nil, List.nil_append, List.singleton_append]
  rw [List.dedup_cons_of_mem (List.mem_reverse.2 h)]

theorem dedupFirst_concat_not_mem {l : List String} {u : String} (h : u ∉ l) :
    dedupFirst (l ++ [u]) = dedupFirst l ++ [u] := by
  unfold dedupFirst
  rw [List.reverse_append]
  simp only [List.reverse_cons, List.reverse_nil, List.nil_append, List.singleton_append]
  rw [List.dedup_cons_of_not_mem (fun hc => h (List.mem_reverse.1 hc))]
  simp

theorem dedupFirst_eq_nil {l : List String} : dedupFirst l = [] ↔ l = [] := by
  unfold dedupFirst
  rw [List.reverse_eq_nil_iff, List.dedup_eq_nil, List.reverse_eq_nil_iff]



/-! ### Tracker-state characterization -/

theorem mapGet_map_fn {β : Type} (us : List String) (f : String → β) (u : String) :
    mapGet (us.map (fun x => (x, f x))) u = if u ∈ us then some (f u) else none := by
  induction us with
  | nil => rfl
  | cons x rest ih =>
    simp only [List.map_cons, mapGet]
    by_cases hx : x = u
    · subst hx
      simp
    · rw [if_neg hx, ih]
      simp [hx, Ne.symm hx]

theorem mapSet_map_fn {β : Type} (us : List String) (f : String → β) (u : String)
    (v : β) (hnd : us.Nodup) (hu : u ∈ us) :
    mapSet (us.map (fun x => (x, f x))) u v =
      us.map (fun x => (x, if x = u then v else f x)) := by
  induction us with
  | nil => cases hu
  | cons x rest ih =>
    simp only [List.map_cons, mapSet]
    by_cases hx : x = u
    · subst hx
      simp only [if_pos rfl]
      have hnotin : x ∉ rest := (List.nodup_cons.1 hnd).1
      have hmapeq : rest.map (fun y => (y, f y)) =
          rest.map (fun y => (y, if y = x then v else f y)) := by
        apply List.map_congr_left
        intro a ha
        have hax : a ≠ x := fun hax => hnotin (hax ▸ ha)
        simp [hax]
      rw [hmapeq]
      simp
    · have hu' : u ∈ rest := by
        rcases List.mem_cons.1 hu with rfl | h
        · exact absurd rfl hx
        · exact h
      rw [if_neg hx, ih (List.nodup_cons.1 hnd).2 hu']
      simp [hx]

theorem filter_uri_eq_nil {rs : List FileTrackerData} {u : String} (hu : u ≠ "")
    (h : u ∉ (trackedOf rs).map (fun r => r.fileUri)) :
    rs.filter (fun r => r.fileUri = u) = [] := by
  rw [List.filter_eq_nil_iff]
  intro r hr hru
  apply h
  rw [List.mem_map]
  have hru' : r.fileUri = u := by simpa using hru
  refine ⟨r, ?_, hru'⟩
  rw [trackedOf, List.mem_filter]
  exact ⟨hr, by simp [hru', hu]⟩

theorem FileTracker.set_eq (st : FileTracker.State) (r : FileTrackerData)
    (hu : ¬ r.fileUri = "") :
    FileTracker.set st r = mapSet st r.fileUri
      (if (((((mapGet st r.fileUri).getD []) ++ [r]).length : Int) >
          FileTracker.MAX_ENTRIES_PER_FILE) then
        jsSlice (((mapGet st r.fileUri).getD []) ++ [r])
          (-FileTracker.MAX_ENTRIES_PER_FILE)
          ((((mapGet st r.fileUri).getD []) ++ [r]).length)
      else ((mapGet st r.fileUri).getD []) ++ [r]) := by
  unfold FileTracker.set
  rw [if_neg hu]

theorem capAppend_eq (h : List FileTrackerData) (r : FileTrackerData)
    (hle : h.length ≤ 20) :
    (if (((h ++ [r]).length : Int) > FileTracker.MAX_ENTRIES_PER_FILE) then
      jsSlice (h ++ [r]) (-FileTracker.MAX_ENTRIES_PER_FILE) ((h ++ [r]).length)
    else h ++ [r]) = (h ++ [r]).rtake 20 := by
  have h20 : FileTracker.MAX_ENTRIES_PER_FILE = ((20 : Nat) : Int) := rfl
  by_cases hlen : (((h ++ [r]).length : Int) > FileTracker.MAX_ENTRIES_PER_FILE)
  · rw [if_pos hlen, h20]
    rw [h20] at hlen
    apply jsSlice_neg_eq_rtake
    · omega
    · simp only [List.length_append, List.length_cons, List.length_nil] at hlen ⊢
      omega
  · rw [if_neg hlen]
    rw [h20] at hlen
    refine (rtake_eq_self _ _ ?_).symm
    simp only [List.length_append, List.length_cons, List.length_nil] at hlen ⊢
    omega

theorem set_modelState (rs : List FileTrackerData) (r : FileTrackerData) :
    FileTracker.set (FileTracker.modelState rs) r =
      FileTracker.modelState (rs ++ [r]) := by
  by_cases hu : r.fileUri = ""
  · rw [FileTracker.set, if_pos hu]
    unfold FileTracker.modelState
    have htr : trackedOf (rs ++ [r]) = trackedOf rs := by
      rw [trackedOf, trackedOf, List.filter_append]
      simp [hu]
    rw [htr]
    apply List.map_congr_left
    intro u humem
    have hune : u ≠ "" := by
      have hmem := mem_dedupFirst.1 humem
      obtain ⟨x, hx, rfl⟩ := List.mem_map.1 hmem
      rw [trackedOf, List.mem_filter] at hx
      simpa using hx.2
    have hfeq : (rs ++ [r]).filter (fun q => q.fileUri = u) =
        rs.filter (fun q => q.fileUri = u) := by
      rw [List.filter_append]
      simp [hu, Ne.symm hune]
    rw [hfeq]
  · have htr : trackedOf (rs ++ [r]) = trackedOf rs ++ [r] := by
      rw [trackedOf, trackedOf, List.filter_append]
      simp [hu]
    by_cases hmem : r.fileUri ∈ (trackedOf rs).map (fun q => q.fileUri)
    · have hmemd : r.fileUri ∈ dedupFirst ((trackedOf rs).map (fun q => q.fileUri)) :=
        mem_dedupFirst.2 hmem
      rw [FileTracker.set_eq _ _ hu]
      unfold FileTracker.modelState
      rw [mapGet_map_fn, if_pos hmemd]
      simp only [Option.getD_some]
      rw [capAppend_eq _ _ (rtake_length_le _ _), rtake_append_rtake]
      rw [mapSet_map_fn _ _ _ _ (nodup_dedupFirst _) hmemd]
      have hded : dedupFirst ((trackedOf (rs ++ [r])).map (fun q => q.fileUri)) =
          dedupFirst ((trackedOf rs).map (fun q => q.fileUri)) := by
        rw [htr, List.map_append]
        exact dedupFirst_concat_mem hmem
      rw [hded]
      apply List.map_congr_left
      intro u humem
      by_cases huu : u = r.fileUri
      · subst huu
        have hfa : (rs ++ [r]).filter (fun q => q.fileUri = r.fileUri) =
            rs.filter (fun q => q.fileUri = r.fileUri) ++ [r] := by
          rw [List.filter_append]
          simp
        rw [hfa]
        simp
      · have hfeq : (rs ++ [r]).filter (fun q => q.fileUri = u) =
            rs.filter (fun q => q.fileUri = u) := by
          rw [List.filter_append]
          simp [Ne.symm huu]
        rw [hfeq]
        simp [huu]
    · have hmemd : r.fileUri ∉ dedupFirst ((trackedOf rs).map (fun q => q.fileUri)) :=
        fun hc => hmem (mem_dedupFirst.1 hc)
      rw [FileTracker.set_eq _ _ hu]
      unfold FileTracker.modelState
      rw [mapGet_map_fn, if_neg hmemd]
      simp only [Option.getD_none]
      rw [capAppend_eq [] r (by simp)]
      have hrt : (([] : List FileTrackerData) ++ [r]).rtake 20 = [r] := by
        apply rtake_eq_self
        simp
      rw [hrt]
      have hfresh : ∀ p ∈ (dedupFirst ((trackedOf rs).map (fun q => q.fileUri))).map
          (fun u => (u, (rs.filter (fun q => q.fileUri = u)).rtake 20)),
          p.1 ≠ r.fileUri := by
        intro p hp
        obtain ⟨u, humem, rfl⟩ := List.mem_map.1 hp
        exact fun hc => hmemd (hc ▸ humem)
      rw [mapSet_append_of_keys _ _ _ hfresh]
      have hded : dedupFirst ((trackedOf (rs ++ [r])).map (fun q => q.fileUri)) =
          dedupFirst ((trackedOf rs).map (fun q => q.fileUri)) ++ [r.fileUri] := by
        rw [htr, List.map_append]
        exact dedupFirst_concat_not_mem hmem
      rw [hded, List.map_append]
      congr 1
      · apply List.map_congr_left
        intro u humem
        have huu : u ≠ r.fileUri := fun hc => hmemd (hc ▸ humem)
        have hfeq : (rs ++ [r]).filter (fun q => q.fileUri = u) =
            rs.filter (fun q => q.fileUri = u) := by
          rw [List.filter_append]
          simp [Ne.symm huu]
        rw [hfeq]
      · have hfa : (rs ++ [r]).filter (fun q => q.fileUri = r.fileUri) =
            rs.filter (fun q => q.fileUri = r.fileUri) ++ [r] := by
          rw [List.filter_append]
          simp
        simp only [List.map_cons, List.map_nil]
        rw [hfa, filter_uri_eq_nil hu hmem]
        simp only [List.nil_append]
        have hrt2 : ([r] : List FileTrackerData).rtake 20 = [r] := by
          apply rtake_eq_self
          simp
        rw [hrt2]

theorem applyAll_eq_modelState (rs : List FileTrackerData) :
    FileTracker.applyAll rs = FileTracker.modelState rs := by
  induction rs using List.reverseRecOn with
  | nil => rfl
  | append_singleton rs r ih =>
    rw [FileTracker.applyAll, List.foldl_append, List.foldl_cons, List.foldl_nil]
    rw [show (List.foldl FileTracker.set [] rs) = FileTracker.applyAll rs from rfl, ih]
    exact set_modelState rs r

/-- C8 (per-file cap): after any sequence of `recordSuggestion` calls the
history of each identity is exactly the last (up to) 20 records recorded for
it, in insertion order — hence at most 20, and recording `cap + 5` records
leaves the newest `cap` with the oldest 5 dropped. -/
theorem C8_per_file_cap (rs : List FileTrackerData) (u : String) (hu : u ≠ "") :
    FileTracker.getFileData (FileTracker.applyAll rs) u =
      (rs.filter (fun r => r.fileUri = u)).rtake 20 ∧
    (FileTracker.getFileData (FileTracker.applyAll rs) u).length ≤ 20 := by
  have h1 : FileTracker.getFileData (FileTracker.applyAll rs) u =
      (rs.filter (fun r => r.fileUri = u)).rtake 20 := by
    rw [applyAll_eq_modelState]
    unfold FileTracker.getFileData FileTracker.modelState
    rw [mapGet_map_fn]
    by_cases hmem : u ∈ dedupFirst ((trackedOf rs).map (fun q => q.fileUri))
    · rw [if_pos hmem]
      simp
    · rw [if_neg hmem]
      rw [filter_uri_eq_nil hu (fun hc => hmem (mem_dedupFirst.2 hc))]
      simp [List.rtake]
  exact ⟨h1, h1 ▸ rtake_length_le _ _⟩

/-- Witness for C8: 25 records for one identity leave exactly the newest 20. -/
theorem C8_per_file_cap_witness :
    ("file:///a" : String) ≠ "" ∧
    FileTracker.getFileData (FileTracker.applyAll ((List.range 25).map
      (fun i => (⟨"file:///a", (i : Int), "add", "", "", "t", "pending"⟩ :
        FileTrackerData)))) "file:///a" =
      ((List.range 25).map (fun i => (⟨"file:///a", (i : Int), "add", "", "", "t",
        "pending"⟩ : FileTrackerData))).drop 5 := by
  refine ⟨by decide, ?_⟩
  rw [(C8_per_file_cap ((List.range 25).map
    (fun i => (⟨"file:///a", (i : Int), "add", "", "", "t", "pending"⟩ :
      FileTrackerData))) "file:///a" (by decide)).1]
  decide

/-- C7 counterexample: with records for `a`, then `b`, then `a` again,
`latest` with no identity returns the `b` record (last history in map
order), not the globally most recent record (the second `a` record). -/
theorem C7_counterexample :
    FileTracker.get (FileTracker.applyAll
      [⟨"file:///a", 1, "add", "", "one", "t1", "pending"⟩,
       ⟨"file:///b", 1, "add", "", "two", "t2", "pending"⟩,
       ⟨"file:///a", 2, "add", "", "three", "t3", "pending"⟩]) none =
      some ⟨"file:///b", 1, "add", "", "two", "t2", "pending"⟩ ∧
    (⟨"file:///b", 1, "add", "", "two", "t2", "pending"⟩ : FileTrackerData) ≠
      ⟨"file:///a", 2, "add", "", "three", "t3", "pending"⟩ := by
  constructor
  · decide
  · decide

/-- C7 amended: `latest` with no identity returns the most recent record
of the identity whose history the map lists last (the identity whose first
record arrived latest), and the empty sentinel when nothing is tracked. -/
theorem C7_latest_global (rs : List FileTrackerData) :
    FileTracker.get (FileTracker.applyAll rs) none =
      ((trackedOf rs).filter (fun r => r.fileUri = lastTrackedUri rs)).getLast? := by
  rw [applyAll_eq_modelState]
  rw [show FileTracker.get (FileTracker.modelState rs) none =
    (FileTracker.getAll (FileTracker.modelState rs)).getLast? from rfl]
  unfold FileTracker.getAll FileTracker.modelState
  rcases List.eq_nil_or_concat
    (dedupFirst ((trackedOf rs).map (fun q => q.fileUri))) with hnil | ⟨us, u, hconc⟩
  · have htr : trackedOf rs = [] := by
      have hmap := dedupFirst_eq_nil.1 hnil
      exact List.map_eq_nil_iff.1 hmap
    rw [hnil, htr]
    simp
  · rw [List.concat_eq_append] at hconc
    have humem : u ∈ (trackedOf rs).map (fun q => q.fileUri) := by
      have : u ∈ dedupFirst ((trackedOf rs).map (fun q => q.fileUri)) := by
        rw [hconc]
        simp
      exact mem_dedupFirst.1 this
    obtain ⟨q, hqtr, hqu⟩ := List.mem_map.1 humem
    have hu_ne : u ≠ "" := by
      rw [trackedOf, List.mem_filter] at hqtr
      rw [← hqu]
      simpa using hqtr.2
    have hlast : lastTrackedUri rs = u := by
      unfold lastTrackedUri
      rw [hconc]
      simp
    have hq_rs : q ∈ rs := (List.mem_filter.1 hqtr).1
    have hfil_ne : rs.filter (fun r => r.fileUri = u) ≠ [] := by
      intro hc
      rw [List.filter_eq_nil_iff] at hc
      exact hc q hq_rs (by simpa using hqu)
    have hrt_ne : (rs.filter (fun r => r.fileUri = u)).rtake 20 ≠ [] :=
      rtake_ne_nil _ _ (by omega) hfil_ne
    rw [hconc, hlast, List.map_append, List.flatMap_append]
    simp only [List.map_cons, List.map_nil, List.flatMap_cons, List.flatMap_nil,
      List.append_nil]
    rw [List.getLast?_append_of_ne_nil _ hrt_ne]
    rw [getLast?_rtake _ _ (by omega)]
    have hfil_eq : (trackedOf rs).filter (fun r => r.fileUri = u) =
        rs.filter (fun r => r.fileUri = u) := by
      rw [trackedOf, List.filter_filter]
      apply List.filter_congr
      intro a ha
      by_cases hau : a.fileUri = u
      · simp [hau, hu_ne]
      · simp [hau]
    rw [hfil_eq]

/-! ### Ghost-text acceptance -/

theorem splitNlChars_ne_nil (l : List Char) : splitNlChars l ≠ [] := by
  cases l with
  | nil => simp [splitNlChars]
  | cons c rest =>
    by_cases hc : c = '\n'
    · subst hc
      simp [splitNlChars]
    · cases hsp : splitNlChars rest with
      | nil => simp [splitNlChars, hc, hsp]
      | cons hd tl => simp [splitNlChars, hc, hsp]

theorem splitNlChars_length (l : List Char) :
    (splitNlChars l).length = l.count '\n' + 1 := by
  induction l with
  | nil => simp [splitNlChars]
  | cons c rest ih =>
    by_cases hc : c = '\n'
    · subst hc
      simp [splitNlChars, List.count_cons, ih]
    · cases hsp : splitNlChars rest with
      | nil => exact absurd hsp (splitNlChars_ne_nil rest)
      | cons hd tl =>
        rw [hsp] at ih
        simp only [splitNlChars, hc, hsp, List.count_cons]
        simp only [List.length_cons] at ih ⊢
        have hcc : ¬ ('\n' = c) := fun h => hc h.symm
        simp [hc, hcc, ih]

theorem setExpected_eq (document : TextDocument) (data : GenerationResult) :
    GhostTextManager.setExpectedGhostText document data =
      some ⟨document.uri, document.version, data.lineStart, data.charStart,
        (claimEndPosition data).line, (claimEndPosition data).character,
        data.content, data.title⟩ := by
  unfold GhostTextManager.setExpectedGhostText claimEndPosition
  dsimp only
  have hlen : (jsSplitNewline data.content).length = data.content.data.count '\n' + 1 := by
    unfold jsSplitNewline
    rw [List.length_map]
    exact splitNlChars_length _
  by_cases hc : data.content.data.count '\n' = 0
  · rw [hlen, hc]
    simp
  · rw [hlen]
    rw [if_pos (by omega : data.content.data.count '\n' + 1 > 1), if_neg hc]
    simp only [Option.some.injEq, GhostTextData.mk.injEq, true_and, and_true]
    constructor
    · push_cast
      ring
    · rw [if_pos (by omega : data.content.data.count '\n' + 1 > 1)]

/-- C2: after an expectation is stored by `setExpectedGhostText`,
`checkGhostTextWasAccepted` returns `true` exactly when the document identity
matches, the version strictly increased, the cursor sits at the computed end
position (per the newline-counting rule), and the text in the start-to-end
range equals the proposed content; on `true` the expectation is consumed so an
immediate second call returns `false`, and on `false` it is left unchanged. -/
theorem C2_acceptance_iff (docAtProposal : TextDocument) (data : GenerationResult)
    (document : TextDocument) (newPosition : Position) :
    ((GhostTextManager.checkGhostTextWasAccepted
        (GhostTextManager.setExpectedGhostText docAtProposal data)
        document newPosition).1 = true ↔
      (document.uri = docAtProposal.uri ∧
       docAtProposal.version < document.version ∧
       newPosition = claimEndPosition data ∧
       document.getText ⟨⟨data.lineStart, data.charStart⟩, claimEndPosition data⟩ =
         data.content)) ∧
    ((GhostTextManager.checkGhostTextWasAccepted
        (GhostTextManager.setExpectedGhostText docAtProposal data)
        document newPosition).1 = false →
      (GhostTextManager.checkGhostTextWasAccepted
        (GhostTextManager.setExpectedGhostText docAtProposal data)
        document newPosition).2 =
        GhostTextManager.setExpectedGhostText docAtProposal data) ∧
    ((GhostTextManager.checkGhostTextWasAccepted
        (GhostTextManager.setExpectedGhostText docAtProposal data)
        document newPosition).1 = true →
      (GhostTextManager.checkGhostTextWasAccepted
        ((GhostTextManager.checkGhostTextWasAccepted
          (GhostTextManager.setExpectedGhostText docAtProposal data)
          document newPosition).2) document newPosition).1 = false) := by
  rw [setExpected_eq]
  unfold GhostTextManager.checkGhostTextWasAccepted
  dsimp only
  split_ifs with h1 h2 h3 h4
  · -- uri mismatch
    refine ⟨?_, fun _ => rfl, fun hc => by simp at hc⟩
    simp only [false_iff]
    intro hcond
    exact h1 (hcond.1.symm)
  · -- version not increased
    refine ⟨?_, fun _ => rfl, fun hc => by simp at hc⟩
    simp only [false_iff]
    intro hcond
    omega
  · -- position and text match: accepted
    refine ⟨?_, fun hc => by simp at hc, fun _ => rfl⟩
    simp only [true_iff]
    have huri : document.uri = docAtProposal.uri := by
      by_contra hne
      exact h1 (fun h => hne h.symm)
    refine ⟨huri, by omega, h3, h4⟩
  · -- position matches, text differs
    refine ⟨?_, fun _ => rfl, fun hc => by simp at hc⟩
    simp only [false_iff]
    intro hcond
    exact h4 hcond.2.2.2
  · -- position mismatch
    refine ⟨?_, fun _ => rfl, fun hc => by simp at hc⟩
    simp only [false_iff]
    intro hcond
    exact h3 hcond.2.2.1

/-- Witness for C2: a two-line proposal at (2,3) accepted at end position (3,2). -/
theorem C2_acceptance_iff_witness :
    (GhostTextManager.checkGhostTextWasAccepted
      (GhostTextManager.setExpectedGhostText ⟨"file:///a", 1, fun _ => ""⟩
        ⟨2, 3, 2, 3, "ab\ncd", "ttttt"⟩)
      ⟨"file:///a", 2, fun r => if r = ⟨⟨2, 3⟩, ⟨3, 2⟩⟩ then "ab\ncd" else ""⟩
      ⟨3, 2⟩).1 = true :=
  (C2_acceptance_iff ⟨"file:///a", 1, fun _ => ""⟩ ⟨2, 3, 2, 3, "ab\ncd", "ttttt"⟩
    ⟨"file:///a", 2, fun r => if r = ⟨⟨2, 3⟩, ⟨3, 2⟩⟩ then "ab\ncd" else ""⟩
    ⟨3, 2⟩).1.mpr ⟨rfl, by decide, by decide, by decide⟩

/-! ### Generation-response validation -/

theorem parseIntField_eq_some (j : Json) (name : String) (lo z : Int) :
    parseIntField j name lo = some z ↔
      getField j name = some (Json.num (z : Rat)) ∧ lo ≤ z := by
  unfold parseIntField
  cases hg : getField j name with
  | none => simp
  | some jv =>
    cases jv with
    | num q =>
      simp only [Option.some.injEq, Json.num.injEq]
      constructor
      · intro h
        by_cases hcond : q.den = 1 ∧ lo ≤ q.num
        · rw [if_pos hcond] at h
          have hz : q.num = z := Option.some.inj h
          subst hz
          exact ⟨((Rat.den_eq_one_iff q).1 hcond.1).symm, hcond.2⟩
        · rw [if_neg hcond] at h
          cases h
      · rintro ⟨hq, hlo⟩
        subst hq
        rw [if_pos ⟨Rat.den_intCast z, by rw [Rat.num_intCast]; exact hlo⟩,
          Rat.num_intCast]
    | null => simp
    | bool b => simp
    | str s => simp
    | arr elems => simp
    | obj fields => simp

theorem parseStrField_eq_some (j : Json) (name : String) (lo hi : Nat) (s : String) :
    parseStrField j name lo hi = some s ↔
      getField j name = some (Json.str s) ∧ lo ≤ s.length ∧ s.length ≤ hi := by
  unfold parseStrField
  cases hg : getField j name with
  | none => simp
  | some jv =>
    cases jv with
    | str t =>
      simp only [Option.some.injEq, Json.str.injEq]
      constructor
      · intro h
        by_cases hcond : lo ≤ t.length ∧ t.length ≤ hi
        · rw [if_pos hcond] at h
          have ht : t = s := Option.some.inj h
          subst ht
          exact ⟨rfl, hcond.1, hcond.2⟩
        · rw [if_neg hcond] at h
          cases h
      · rintro ⟨hq, hlo, hhi⟩
        subst hq
        rw [if_pos ⟨hlo, hhi⟩]
    | null => simp
    | bool b => simp
    | num q => simp
    | arr elems => simp
    | obj fields => simp

theorem generationSchemaParse_eq_some (j : Json) (r : GenerationResult) :
    generationSchemaParse j = some r ↔ ValidGenerationResponse j r := by
  unfold generationSchemaParse ValidGenerationResponse
  constructor
  · intro h
    cases hls : parseIntField j "lineStart" 1 with
    | none => rw [hls] at h; cases h
    | some ls =>
    cases hcs : parseIntField j "charStart" 0 with
    | none => rw [hls, hcs] at h; cases h
    | some cs =>
    cases hle : parseIntField j "lineEnd" 1 with
    | none => rw [hls, hcs, hle] at h; cases h
    | some le =>
    cases hce : parseIntField j "charEnd" 0 with
    | none => rw [hls, hcs, hle, hce] at h; cases h
    | some ce =>
    cases hco : parseStrField j "content" 10 1000 with
    | none => rw [hls, hcs, hle, hce, hco] at h; cases h
    | some content =>
    cases hti : parseStrField j "title" 10 50 with
    | none => rw [hls, hcs, hle, hce, hco, hti] at h; cases h
    | some title =>
    rw [hls, hcs, hle, hce, hco, hti] at h
    dsimp only at h
    by_cases hord : ls ≤ le
    · rw [if_pos hord] at h
      have hr : (⟨ls, cs, le, ce, content, title⟩ : GenerationResult) = r :=
        Option.some.inj h
      subst hr
      obtain ⟨hg1, hb1⟩ := (parseIntField_eq_some j "lineStart" 1 ls).1 hls
      obtain ⟨hg2, hb2⟩ := (parseIntField_eq_some j "charStart" 0 cs).1 hcs
      obtain ⟨hg3, hb3⟩ := (parseIntField_eq_some j "lineEnd" 1 le).1 hle
      obtain ⟨hg4, hb4⟩ := (parseIntField_eq_some j "charEnd" 0 ce).1 hce
      obtain ⟨hg5, hb5, hb5'⟩ := (parseStrField_eq_some j "content" 10 1000 content).1 hco
      obtain ⟨hg6, hb6, hb6'⟩ := (parseStrField_eq_some j "title" 10 50 title).1 hti
      exact ⟨hg1, hb1, hg2, hb2, hg3, hb3, hg4, hb4, hg5, hb5, hb5', hg6, hb6, hb6', hord⟩
    · rw [if_neg hord] at h
      cases h
  · intro hv
    obtain ⟨hg1, hb1, hg2, hb2, hg3, hb3, hg4, hb4, hg5, hb5, hb5', hg6, hb6, hb6', hord⟩ := hv
    rw [(parseIntField_eq_some j "lineStart" 1 r.lineStart).2 ⟨hg1, hb1⟩,
      (parseIntField_eq_some j "charStart" 0 r.charStart).2 ⟨hg2, hb2⟩,
      (parseIntField_eq_some j "lineEnd" 1 r.lineEnd).2 ⟨hg3, hb3⟩,
      (parseIntField_eq_some j "charEnd" 0 r.charEnd).2 ⟨hg4, hb4⟩,
      (parseStrField_eq_some j "content" 10 1000 r.content).2 ⟨hg5, hb5, hb5'⟩,
      (parseStrField_eq_some j "title" 10 50 r.title).2 ⟨hg6, hb6, hb6'⟩]
    dsimp only
    rw [if_pos hord]

/-- C4 amended: `requestOllama` yields a suggestion exactly when the service
response carries a `message` whose content parses as JSON and satisfies the
actual recognized shape `{lineStart, charStart, lineEnd, charEnd, content,
title}` with its bounds and the `lineStart <= lineEnd` refinement; every other
response yields `null` (the function is total — it never raises). -/
theorem C4_schema_validation (response : Option (Option Json)) (r : GenerationResult) :
    requestOllama response = some r ↔
      ∃ j, response = some (some j) ∧ ValidGenerationResponse j r := by
  cases response with
  | none => simp [requestOllama]
  | some o =>
    cases o with
    | none => simp [requestOllama]
    | some j =>
      have hreq : requestOllama (some (some j)) = generationSchemaParse j := rfl
      rw [hreq, generationSchemaParse_eq_some]
      constructor
      · intro hv
        exact ⟨j, rfl, hv⟩
      · rintro ⟨j', hj', hv⟩
        have : j' = j := by
          have h1 := Option.some.inj hj'
          exact (Option.some.inj h1).symm
        subst this
        exact hv

/-! ### Claim theorems on the diff engine and session guard -/

/-- C4 counterexample: a response in the *actual* recognized shape
(`lineStart`/`charStart`/`lineEnd`/`charEnd`/`content`/`title`) produces a
validated suggestion although it fails the claim's `{type, oldContent,
newContent, title}` shape — so validation is not against the claimed shape. -/
theorem C4_counterexample :
    requestOllama (some (some (Json.obj [("lineStart", Json.num 1),
      ("charStart", Json.num 0), ("lineEnd", Json.num 1), ("charEnd", Json.num 0),
      ("content", Json.str "0123456789"), ("title", Json.str "0123456789")]))) =
      some ⟨1, 0, 1, 0, "0123456789", "0123456789"⟩ ∧
    specShapeValidate (Json.obj [("lineStart", Json.num 1),
      ("charStart", Json.num 0), ("lineEnd", Json.num 1), ("charEnd", Json.num 0),
      ("content", Json.str "0123456789"), ("title", Json.str "0123456789")]) =
      none := by
  constructor
  · rfl
  · rfl

/-- C3 (code bug evidence): while a generation request is outstanding
(`ollamaOngoing`), a new trigger — here with a pending `add` record present —
*does* start a second generation request instead of returning the pending
content; and a pending record of type `none` also falls through to a new
request instead of a no-op.  `handleSessionCompletion` returns `null` in both
situations and the caller treats `null` as "no previous result: generate". -/
theorem C3_second_trigger_starts_request :
    CompletionProvider.provideDecision
      ⟨true, false, false, false, true,
       some ⟨"file:///a", 1, "add", "", "x", "ttt", "pending"⟩⟩ =
      ⟨[], true⟩ ∧
    CompletionProvider.provideDecision
      ⟨true, false, false, false, false,
       some ⟨"file:///a", 1, "none", "", "", "ttt", "pending"⟩⟩ =
      ⟨[], true⟩ := by
  constructor
  · rfl
  · rfl

/-- C1 (code bug evidence): for `a = "a"`, `b = "b\nc\nd"` the backtracking
loses every operation (the trace snapshots dropped the negative diagonals, so
`prevX` is `undefined` and each iteration `continue`s) and the gap-filling pass
fabricates an `equal` operation over unequal lines; the new-side
reconstruction is `["a"]`, not `b`'s line sequence `["b", "c", "d"]`. -/
theorem C1_roundtrip_code_bug :
    MyersDiff.computeDiff "a" "b\nc\nd" =
      { operations := [⟨MyersDiff.DiffType.equal, 0, 1, 0, 1, ["a"]⟩],
        oldLength := 1, newLength := 3, editDistance := 4 } ∧
    MyersDiff.newSideContent (MyersDiff.computeDiff "a" "b\nc\nd") ≠
      MyersDiff.splitLines "b\nc\nd" := by
  constructor
  · rfl
  · decide

/-- C5 (code bug evidence): `computeDiff("x", "x")` has edit distance 0 but
*two* operations — the backtracking loop runs down to `i = 0` (the reference
algorithm stops at `i = 1`) and emits a spurious empty `insert` with
`newStart = -1` ahead of the spanning `equal`. -/
theorem C5_identity_diff_code_bug :
    MyersDiff.computeDiff "x" "x" =
      { operations := [⟨MyersDiff.DiffType.ins, 0, 0, -1, 0, []⟩,
                       ⟨MyersDiff.DiffType.equal, 0, 1, 0, 1, ["x"]⟩],
        oldLength := 1, newLength := 1, editDistance := 0 } ∧
    (MyersDiff.computeDiff "x" "x").operations.length ≠ 1 := by
  constructor
  · rfl
  · decide

/-- C6 counterexample: `computeDiff("", "hello\nworld")` does not return a
single `insert` of `["hello", "world"]` — the empty old text is the one-line
sequence `[""]`, so the insert-only fast path is unreachable. -/
theorem C6_counterexample :
    ¬ ((MyersDiff.computeDiff "" "hello\nworld").operations.map
        (fun op => (op.type, op.content)) =
      [(MyersDiff.DiffType.ins, ["hello", "world"])]) := by
  decide

/-- C6 amended: the actual result has `oldLength = 1`, `newLength = 2`,
edit distance 3, and four operations: the spurious empty insert artifact,
a delete of the empty old line, and one insert per new line. -/
theorem C6_empty_to_two_lines :
    MyersDiff.computeDiff "" "hello\nworld" =
      { operations := [⟨MyersDiff.DiffType.ins, 0, 0, -1, 0, []⟩,
                       ⟨MyersDiff.DiffType.del, 0, 1, 0, 0, [""]⟩,
                       ⟨MyersDiff.DiffType.ins, 1, 1, 0, 1, ["hello"]⟩,
                       ⟨MyersDiff.DiffType.ins, 1, 1, 1, 2, ["world"]⟩],
        oldLength := 1, newLength := 2, editDistance := 3 } := by
  rfl
